import Mathlib

/-!
Verification of the pywinssh core against its specification.

The development shallowly embeds the two core components:

* the terminal stream interpreter `TerminalWidget._parse_ansi`
  (src/gui/terminal_widget.py) together with the attribute handling of
  `append_text`, and
* the session I/O engine `SSHSession._receive_loop` / `_send_loop` / `close`
  (src/ssh/session.py), with the paramiko channel modelled as a script of
  per-iteration responses.

Python strings are embedded as `List Char`, byte buffers as `List Nat`,
`QColor(r, g, b)` as a record of three naturals, and exceptions as
`Except String`.
-/

namespace Pywinssh

/-- `QColor(r, g, b)` from PyQt5, as used by the widget. -/
structure Color where
  r : Nat
  g : Nat
  b : Nat
deriving DecidableEq, Repr

/-- The formatting dictionaries `_parse_ansi` appends: a foreground color
under key `fg`, a background color under key `bg`, or a reset flag. -/
inductive Dir where
  | fg (c : Color)
  | bg (c : Color)
  | reset
deriving DecidableEq, Repr

/-- One element of the list returned by `_parse_ansi`: either a plain-text
part (a Python `str` slice) or a formatting dictionary. -/
inductive Item where
  | text (t : List Char)
  | dir (d : Dir)
deriving DecidableEq, Repr

/-- The `ANSI_COLORS` class attribute of `TerminalWidget`: decimal code
string mapped to a `QColor`. -/
def ANSI_COLORS : List (List Char × Color) :=
  [ ("30".toList, ⟨0, 0, 0⟩)
  , ("31".toList, ⟨205, 0, 0⟩)
  , ("32".toList, ⟨0, 205, 0⟩)
  , ("33".toList, ⟨205, 205, 0⟩)
  , ("34".toList, ⟨0, 0, 238⟩)
  , ("35".toList, ⟨205, 0, 205⟩)
  , ("36".toList, ⟨0, 205, 205⟩)
  , ("37".toList, ⟨229, 229, 229⟩)
  , ("90".toList, ⟨127, 127, 127⟩)
  , ("91".toList, ⟨255, 0, 0⟩)
  , ("92".toList, ⟨0, 255, 0⟩)
  , ("93".toList, ⟨255, 255, 0⟩)
  , ("94".toList, ⟨92, 92, 255⟩)
  , ("95".toList, ⟨255, 0, 255⟩)
  , ("96".toList, ⟨0, 255, 255⟩)
  , ("97".toList, ⟨255, 255, 255⟩) ]

/-- The Python membership test `code in ANSI_COLORS` and the lookup
`ANSI_COLORS[code]` on the dict above. -/
def lookupColor : List (List Char × Color) → List Char → Option Color
  | [], _ => none
  | (k, v) :: rest, code => if code = k then some v else lookupColor rest code

/-- The ESC byte `\x1b`. -/
def escChar : Char := Char.ofNat 27

/-- The terminator set of the scanning loop, the Python string literal
`HfABCDEFGHJKSTm@` used in the test `text[j] not in` that literal. -/
def terminators : List Char := "HfABCDEFGHJKSTm@".toList

/-- Membership test `ch in` the terminator string. -/
def isTerminator (ch : Char) : Bool := terminators.contains ch

/-- The test `ord(c) < 32 and c not in` the whitespace string `\n\r\t`:
a control byte that `_parse_ansi` strips rather than displays. -/
def strippedChar (c : Char) : Bool :=
  decide (c.toNat < 32) && !("\n\r\t".toList.contains c)

/-- The test at the top of the scanning loop and inside the text-run loop:
`text[i]` is ESC, `i + 1 < len(text)`, and `text[i + 1]` is the opening
bracket. -/
def isEscStart (c : Char) (rest : List Char) : Prop :=
  c = escChar ∧ rest.head? = some '['

instance (c : Char) (rest : List Char) : Decidable (isEscStart c rest) := by
  unfold isEscStart; infer_instance

/-- The Python split of `code_str` on semicolons; note that splitting the
empty string yields a list holding one empty string. -/
def splitSemis : List Char → List (List Char)
  | [] => [[]]
  | c :: rest =>
    if c = ';' then [] :: splitSemis rest
    else
      match splitSemis rest with
      | g :: gs => (c :: g) :: gs
      | [] => [[c]]

/-- The `for code in codes` body run for one parameter `code` of an
`m`-terminated sequence (terminal_widget.py lines 130-144).  The
`startswith` fallbacks for codes beginning with 3 or 4 look the single
character `code[1]` up in `ANSI_COLORS`, exactly as the source does. -/
def codeItems (code : List Char) : List Item :=
  if code = ['0'] ∨ code = [] then [Item.dir Dir.reset]
  else
    match lookupColor ANSI_COLORS code with
    | some col => [Item.dir (Dir.fg col)]
    | none =>
      match code with
      | [a, b] =>
        if a = '3' then
          match lookupColor ANSI_COLORS [b] with
          | some col => [Item.dir (Dir.fg col)]
          | none => []
        else if a = '4' then
          match lookupColor ANSI_COLORS [b] with
          | some col => [Item.dir (Dir.bg col)]
          | none => []
        else []
      | _ => []

/-- The split of `code_str` on semicolons followed by the
`for code in codes` loop:
the sequence of formatting dictionaries appended for one complete
`...m` sequence with parameter substring `codeStr`. -/
def mItems (codeStr : List Char) : List Item :=
  (splitSemis codeStr).foldr (fun code acc => codeItems code ++ acc) []

/-- The inner text-run loop (terminal_widget.py lines 158-166): starting at
the current position, advance while the character is neither the start of an
escape sequence (ESC with a following opening bracket) nor a stripped
control byte.
Returns the run `text[start:i]` and the unconsumed remainder. -/
def takeRun : List Char → List Char × List Char
  | [] => ([], [])
  | [c] => if strippedChar c then ([], [c]) else ([c], [])
  | c :: d :: rest =>
    if c = escChar ∧ d = '[' then ([], c :: d :: rest)
    else if strippedChar c then ([], c :: d :: rest)
    else
      let p := takeRun (d :: rest)
      (c :: p.1, p.2)

theorem takeRun_append : ∀ l : List Char, (takeRun l).1 ++ (takeRun l).2 = l
  | [] => rfl
  | [c] => by
    unfold takeRun
    by_cases h : strippedChar c <;> simp [h]
  | c :: d :: rest => by
    unfold takeRun
    by_cases h1 : c = escChar ∧ d = '['
    · simp [h1]
    · by_cases h2 : strippedChar c
      · simp [h1, h2]
      · simp only [h1, h2, if_neg, if_false, Bool.false_eq_true, not_false_iff]
        simp only [List.cons_append, List.cons.injEq, true_and]
        exact takeRun_append (d :: rest)

theorem takeRun_snd_le : ∀ l : List Char, (takeRun l).2.length ≤ l.length := by
  intro l
  have h := takeRun_append l
  calc (takeRun l).2.length ≤ (takeRun l).1.length + (takeRun l).2.length :=
        Nat.le_add_left _ _
    _ = l.length := by rw [← List.length_append, h]

theorem takeRun_snd_le_of_keep (c : Char) (rest : List Char)
    (hesc : ¬ isEscStart c rest) (hctl : ¬ strippedChar c = true) :
    (takeRun (c :: rest)).2.length ≤ rest.length := by
  cases rest with
  | nil =>
    unfold takeRun
    simp [hctl]
  | cons d rest2 =>
    have hne : ¬ (c = escChar ∧ d = '[') := by
      intro ⟨h1, h2⟩
      exact hesc ⟨h1, by simp [h2]⟩
    unfold takeRun
    simp only [hne, if_neg, not_false_iff, hctl, if_false]
    simpa using takeRun_snd_le (d :: rest2)

theorem dropWhile_length_le (p : Char → Bool) (l : List Char) :
    (l.dropWhile p).length ≤ l.length := by
  conv_rhs => rw [← List.takeWhile_append_dropWhile (p := p) (l := l)]
  rw [List.length_append]
  omega

/-- `TerminalWidget._parse_ansi` (terminal_widget.py lines 98-173): the
scanning loop over `text`, transcribed with the string position `i`
replaced by the remaining suffix.

* ESC followed by an opening bracket: scan forward to the first character
  in the terminator set.  If one is found, emit the formatting dictionaries
  for an `m` command (nothing for other commands) and continue after it; if
  the chunk ends first, the `else` arm of line 149 advances `i` by one,
  i.e. resumes scanning at the bracket.
* Other control bytes outside `\n\r\t` are skipped.
* Otherwise a text run is taken with `takeRun`; a non-empty run is appended,
  and the control byte the run stopped at (if any) is skipped (line 169). -/
def parseAnsi : List Char → List Item
  | [] => []
  | c :: rest =>
    if _hesc : isEscStart c rest then
      let rem := (rest.tail).dropWhile (fun ch => !(isTerminator ch))
      (match rem.head? with
       | some t =>
         (if t = 'm' then mItems ((rest.tail).takeWhile (fun ch => !(isTerminator ch)))
          else []) ++ parseAnsi rem.tail
       | none => parseAnsi rest)
    else if _hctl : strippedChar c then
      parseAnsi rest
    else
      let p := takeRun (c :: rest)
      (if p.1.isEmpty then [] else [Item.text p.1]) ++
      (match p.2.head? with
       | none => []
       | some x => if strippedChar x then parseAnsi p.2.tail else parseAnsi p.2)
termination_by l => l.length
decreasing_by
  · simp only [List.length_cons]
    have h1 := dropWhile_length_le (fun ch => !(isTerminator ch)) rest.tail
    have h2 : ((rest.tail).dropWhile (fun ch => !(isTerminator ch))).tail.length
        ≤ ((rest.tail).dropWhile (fun ch => !(isTerminator ch))).length := by
      cases (rest.tail).dropWhile (fun ch => !(isTerminator ch)) <;> simp
    have h3 : (rest.tail).length ≤ rest.length := by
      cases rest <;> simp
    omega
  · simp
  · simp
  · have h1 := takeRun_snd_le_of_keep c rest _hesc _hctl
    have h2 : (takeRun (c :: rest)).2.tail.length ≤ (takeRun (c :: rest)).2.length := by
      cases (takeRun (c :: rest)).2 <;> simp
    simp only [List.length_cons]
    omega
  · have h1 := takeRun_snd_le_of_keep c rest _hesc _hctl
    simp only [List.length_cons]
    omega

/-- The mutable format state of the widget: the foreground and background
colors of `self._current_format`. -/
structure Attr where
  fg : Color
  bg : Color
deriving DecidableEq, Repr

/-- The format installed in `__init__` (terminal_widget.py lines 54-56):
default white text `QColor(229, 229, 229)` on black `QColor(0, 0, 0)`. -/
def defaultAttr : Attr := ⟨⟨229, 229, 229⟩, ⟨0, 0, 0⟩⟩

/-- The effect of one formatting dictionary on `self._current_format`
(`append_text`, terminal_widget.py lines 79-87): the `fg` and `bg` keys set
one color, the reset key restores the default white-on-black. -/
def applyDir (a : Attr) : Dir → Attr
  | Dir.fg c => { a with fg := c }
  | Dir.bg c => { a with bg := c }
  | Dir.reset => ⟨⟨229, 229, 229⟩, ⟨0, 0, 0⟩⟩

/-- The format state after the loop in `append_text` has consumed a parse
result. -/
def runAttrs (a : Attr) : List Item → Attr
  | [] => a
  | Item.dir d :: rest => runAttrs (applyDir a d) rest
  | Item.text _ :: rest => runAttrs a rest

/-- The rendered output of the loop in `append_text`: each character of each
text part, paired with the format in effect when it is inserted
(`cursor.setCharFormat(self._current_format); cursor.insertText(part)`).
This is the observable styled text and attribute sequence. -/
def styledChars (a : Attr) : List Item → List (Char × Attr)
  | [] => []
  | Item.dir d :: rest => styledChars (applyDir a d) rest
  | Item.text t :: rest => t.map (fun ch => (ch, a)) ++ styledChars a rest

theorem parse_esc0m : parseAnsi "\x1b[0m".toList = [Item.dir Dir.reset] := by
  simp +decide [parseAnsi, mItems, splitSemis, codeItems, lookupColor, ANSI_COLORS,
    isEscStart, escChar, strippedChar, isTerminator, terminators, takeRun,
    List.dropWhile, List.takeWhile, List.contains, List.elem]

theorem parse_escm : parseAnsi "\x1b[m".toList = [Item.dir Dir.reset] := by
  simp +decide [parseAnsi, mItems, splitSemis, codeItems, lookupColor, ANSI_COLORS,
    isEscStart, escChar, strippedChar, isTerminator, terminators, takeRun,
    List.dropWhile, List.takeWhile, List.contains, List.elem]

theorem parse_esc999hi : parseAnsi "\x1b[999mhi".toList = [Item.text "hi".toList] := by
  simp +decide [parseAnsi, mItems, splitSemis, codeItems, lookupColor, ANSI_COLORS,
    isEscStart, escChar, strippedChar, isTerminator, terminators, takeRun,
    List.dropWhile, List.takeWhile, List.contains, List.elem]

theorem parse_bell : parseAnsi "A\x07B".toList = [Item.text ['A'], Item.text ['B']] := by
  simp +decide [parseAnsi, mItems, splitSemis, codeItems, lookupColor, ANSI_COLORS,
    isEscStart, escChar, strippedChar, isTerminator, terminators, takeRun,
    List.dropWhile, List.takeWhile, List.contains, List.elem]

theorem parse_chunk_escBracket : parseAnsi "\x1b[".toList = [Item.text ['[']] := by
  simp +decide [parseAnsi, mItems, splitSemis, codeItems, lookupColor, ANSI_COLORS,
    isEscStart, escChar, strippedChar, isTerminator, terminators, takeRun,
    List.dropWhile, List.takeWhile, List.contains, List.elem]

theorem parse_chunk_31mRED : parseAnsi "31mRED".toList = [Item.text "31mRED".toList] := by
  simp +decide [parseAnsi, mItems, splitSemis, codeItems, lookupColor, ANSI_COLORS,
    isEscStart, escChar, strippedChar, isTerminator, terminators, takeRun,
    List.dropWhile, List.takeWhile, List.contains, List.elem]

theorem parse_esc31mRED : parseAnsi "\x1b[31mRED".toList
    = [Item.dir (Dir.fg ⟨205, 0, 0⟩), Item.text "RED".toList] := by
  simp +decide [parseAnsi, mItems, splitSemis, codeItems, lookupColor, ANSI_COLORS,
    isEscStart, escChar, strippedChar, isTerminator, terminators, takeRun,
    List.dropWhile, List.takeWhile, List.contains, List.elem]

theorem parse_esc3 : parseAnsi "\x1b[3".toList = [Item.text "[3".toList] := by
  simp +decide [parseAnsi, mItems, splitSemis, codeItems, lookupColor, ANSI_COLORS,
    isEscStart, escChar, strippedChar, isTerminator, terminators, takeRun,
    List.dropWhile, List.takeWhile, List.contains, List.elem]

theorem stripped_escChar : strippedChar escChar = true := by decide

theorem codeItems_no_text (t code : List Char) : Item.text t ∉ codeItems code := by
  unfold codeItems
  repeat' split
  all_goals simp

theorem mItems_no_text (t codeStr : List Char) : Item.text t ∉ mItems codeStr := by
  unfold mItems
  induction splitSemis codeStr with
  | nil => simp
  | cons g gs ih =>
    simp only [List.foldr_cons, List.mem_append]
    intro h
    rcases h with h | h
    · exact codeItems_no_text t g h
    · exact ih h

theorem takeRun_fst_nostrip :
    ∀ l : List Char, ∀ ch ∈ (takeRun l).1, strippedChar ch = false
  | [] => by simp [takeRun]
  | [c] => by by_cases h : strippedChar c <;> simp [takeRun, h]
  | c :: d :: rest => by
    by_cases h1 : c = escChar ∧ d = '['
    · simp [takeRun, h1]
    · by_cases h2 : strippedChar c
      · simp [takeRun, h1, h2]
      · intro ch hch
        unfold takeRun at hch
        simp only [h1, if_neg, not_false_iff, h2, if_false, Bool.false_eq_true,
          List.mem_cons] at hch
        rcases hch with rfl | hch
        · simpa using h2
        · exact takeRun_fst_nostrip (d :: rest) ch hch

theorem takeRun_all_keep :
    ∀ l : List Char, (∀ ch ∈ l, strippedChar ch = false) → takeRun l = (l, [])
  | [] => by simp [takeRun]
  | [c] => by intro h; simp [takeRun, h c (by simp)]
  | c :: d :: rest => by
    intro h
    have hc : strippedChar c = false := h c (by simp)
    have h1 : ¬ (c = escChar ∧ d = '[') := by
      rintro ⟨rfl, -⟩
      rw [stripped_escChar] at hc
      simp at hc
    have hrec := takeRun_all_keep (d :: rest) (fun ch hch => h ch (by simp [hch]))
    unfold takeRun
    simp [h1, hc, hrec]

/-- A stream with no stripped control bytes (hence no ESC) parses to a
single text run. -/
theorem parse_nostrip (l : List Char) (h : ∀ ch ∈ l, strippedChar ch = false) :
    parseAnsi l = if l.isEmpty then [] else [Item.text l] := by
  cases l with
  | nil => simp [parseAnsi]
  | cons c rest =>
    have hc : strippedChar c = false := h c (by simp)
    have hesc : ¬ isEscStart c rest := by
      rintro ⟨rfl, -⟩
      rw [stripped_escChar] at hc
      simp at hc
    have htr := takeRun_all_keep (c :: rest) h
    unfold parseAnsi
    simp [hesc, hc, htr]

/-- Every text part produced by `_parse_ansi` is non-empty and contains no
stripped control byte. -/
theorem parse_text_parts (l : List Char) :
    ∀ t, Item.text t ∈ parseAnsi l → t ≠ [] ∧ ∀ ch ∈ t, strippedChar ch = false := by
  induction l using parseAnsi.induct with
  | case1 => simp [parseAnsi]
  | case2 c rest hesc rem t hrem ih =>
    intro u hu
    unfold parseAnsi at hu
    simp only [hesc, dif_pos] at hu
    rw [hrem] at hu
    have hu2 : Item.text u ∈
        (if t = 'm' then mItems (List.takeWhile (fun ch => !isTerminator ch) rest.tail)
         else []) ++ parseAnsi (List.dropWhile (fun ch => !isTerminator ch) rest.tail).tail := hu
    rcases List.mem_append.mp hu2 with h3 | h3
    · by_cases hm : t = 'm'
      · rw [if_pos hm] at h3
        exact absurd h3 (mItems_no_text u _)
      · rw [if_neg hm] at h3
        simp at h3
    · exact ih u h3
  | case3 c rest hesc rem hrem ih =>
    intro u hu
    unfold parseAnsi at hu
    simp only [hesc, dif_pos] at hu
    rw [hrem] at hu
    exact ih u hu
  | case4 c rest hesc hctl ih =>
    intro u hu
    unfold parseAnsi at hu
    rw [dif_neg hesc, dif_pos hctl] at hu
    exact ih u hu
  | case5 c rest hesc hctl p ih1 ih2 =>
    intro u hu
    unfold parseAnsi at hu
    rw [dif_neg hesc, dif_neg hctl] at hu
    have hu2 : Item.text u ∈
        (if (takeRun (c :: rest)).1.isEmpty then []
         else [Item.text (takeRun (c :: rest)).1]) ++
          (match (takeRun (c :: rest)).2.head? with
           | none => ([] : List Item)
           | some x => if strippedChar x then parseAnsi (takeRun (c :: rest)).2.tail
                       else parseAnsi (takeRun (c :: rest)).2) := hu
    rcases List.mem_append.mp hu2 with h3 | h3
    · by_cases he : (takeRun (c :: rest)).1.isEmpty
      · rw [if_pos he] at h3
        simp at h3
      · rw [if_neg he] at h3
        simp only [List.mem_singleton, Item.text.injEq] at h3
        subst h3
        constructor
        · intro hnil
          rw [hnil] at he
          simp at he
        · exact takeRun_fst_nostrip (c :: rest)
    · cases hh : (takeRun (c :: rest)).2.head? with
      | none =>
        rw [hh] at h3
        simp at h3
      | some x =>
        rw [hh] at h3
        have h4 : Item.text u ∈
            (if strippedChar x then parseAnsi (takeRun (c :: rest)).2.tail
             else parseAnsi (takeRun (c :: rest)).2) := h3
        by_cases hx : strippedChar x
        · rw [if_pos hx] at h4
          exact ih1 u h4
        · rw [if_neg hx] at h4
          exact ih2 u h4

theorem styledChars_append (xs ys : List Item) :
    ∀ a : Attr, styledChars a (xs ++ ys)
      = styledChars a xs ++ styledChars (runAttrs a xs) ys := by
  induction xs with
  | nil => intro a; rfl
  | cons i xs ih =>
    intro a
    cases i with
    | dir d => simpa [styledChars, runAttrs] using ih (applyDir a d)
    | text t => simp [styledChars, runAttrs, ih a]

theorem chunks_styled :
    ∀ (chunks : List (List Char)) (a : Attr),
      (∀ l ∈ chunks, ∀ ch ∈ l, strippedChar ch = false) →
      styledChars a ((chunks.map parseAnsi).flatten)
        = (chunks.flatten).map (fun ch => (ch, a)) := by
  intro chunks
  induction chunks with
  | nil => intro a _; rfl
  | cons l ls ih =>
    intro a h
    have hl : ∀ ch ∈ l, strippedChar ch = false := h l (by simp)
    have hls : ∀ l2 ∈ ls, ∀ ch ∈ l2, strippedChar ch = false :=
      fun l2 h2 => h l2 (by simp [h2])
    simp only [List.map_cons, List.flatten_cons, styledChars_append]
    rw [parse_nostrip l hl]
    by_cases hemp : l.isEmpty
    · have : l = [] := by simpa [List.isEmpty_iff] using hemp
      subst this
      simpa [styledChars, runAttrs] using ih a hls
    · rw [if_neg hemp]
      simp only [styledChars, runAttrs, List.map_append, List.append_nil]
      rw [ih a hls]

/-!
## The session engine

`SSHSession._receive_loop` and `_send_loop` (session.py) each run in a
dedicated thread against the paramiko channel.  The channel and queue are
modelled as a script: one entry per loop iteration recording what each
channel/queue call returns on that iteration (a value, or the exception it
raises, as `Except String`).  An exhausted script models `self._running`
(or `self.channel`) becoming falsy at the `while` check.  Decoding with
`errors=replace` never raises, so the emitted payload is modelled as the
raw bytes read.
-/

/-- The Qt signals the session emits: `data_received`, `session_closed`
and `error_occurred`. -/
inductive SEvent where
  | dataReceived (bytes : List Nat)
  | sessionClosed (code : Int)
  | errorOccurred (msg : String)
deriving DecidableEq, Repr

/-- A channel operation performed by the receive loop. -/
inductive CCall where
  | recvReadyCall
  | recvCall
  | exitReadyCall
  | exitStatusCall
deriving DecidableEq, Repr

/-- One iteration of channel responses for `_receive_loop`:
`recv_ready()`, `recv(4096)`, `exit_status_ready()` and
`recv_exit_status()`, each either returning or raising. -/
structure RecvStep where
  recvReady : Except String Bool
  recvData : Except String (List Nat)
  exitReady : Except String Bool
  exitCode : Except String Int
deriving Repr

/-- The first half of a `_receive_loop` iteration (session.py lines 95-104):
`recv_ready()` and, when it is true, `recv(4096)` inside the inner `try`.
`none` models the silent `break` of the inner handler (lines 102-104: a
warning log only, no event); otherwise the events emitted so far and the
channel calls made.  An exception from `recv_ready()` itself escapes to the
outer handler. -/
def recvPhase (s : RecvStep) :
    Except String (Option (List SEvent × List CCall)) :=
  match s.recvReady with
  | Except.error e => Except.error e
  | Except.ok rr =>
    if rr then
      match s.recvData with
      | Except.error _ => Except.ok none
      | Except.ok data =>
        Except.ok (some
          (if data.length ≠ 0 then [SEvent.dataReceived data] else [],
           [CCall.recvReadyCall, CCall.recvCall]))
    else Except.ok (some ([], [CCall.recvReadyCall]))

/-- Outcome of the exit check at the bottom of a `_receive_loop`
iteration: either the loop ends with extra events/calls, or it proceeds to
the next iteration having made extra calls. -/
inductive ExitPhaseOut where
  | stop (evs2 : List SEvent) (calls2 : List CCall)
  | next (calls2 : List CCall)

/-- The second half of a `_receive_loop` iteration (session.py lines
106-111): `exit_status_ready()` and, when true, `recv_exit_status()`
followed by `session_closed` and `break`.  An exception in either call
escapes to the outer handler (lines 113-115), which emits
`error_occurred` and ends the loop. -/
def exitPhase (s : RecvStep) : ExitPhaseOut :=
  match s.exitReady with
  | Except.error e =>
    ExitPhaseOut.stop [SEvent.errorOccurred e] [CCall.exitReadyCall]
  | Except.ok er =>
    if er then
      match s.exitCode with
      | Except.error e =>
        ExitPhaseOut.stop [SEvent.errorOccurred e]
          [CCall.exitReadyCall, CCall.exitStatusCall]
      | Except.ok code =>
        ExitPhaseOut.stop [SEvent.sessionClosed code]
          [CCall.exitReadyCall, CCall.exitStatusCall]
    else ExitPhaseOut.next [CCall.exitReadyCall]

/-- `SSHSession._receive_loop` (session.py lines 91-117), one script entry
per iteration.  Returns the emitted events and the channel calls made. -/
def receiveLoop : List RecvStep → List SEvent × List CCall
  | [] => ([], [])
  | s :: rest =>
    match recvPhase s with
    | Except.error e => ([SEvent.errorOccurred e], [CCall.recvReadyCall])
    | Except.ok none => ([], [CCall.recvReadyCall, CCall.recvCall])
    | Except.ok (some (evs, calls)) =>
      match exitPhase s with
      | ExitPhaseOut.stop evs2 calls2 => (evs ++ evs2, calls ++ calls2)
      | ExitPhaseOut.next calls2 =>
        let r := receiveLoop rest
        (evs ++ r.1, calls ++ calls2 ++ r.2)

/-- One iteration of `_send_loop`: the values of `self._running` and
`self.channel` at the `while` check, the result of
`self._send_queue.get(timeout=0.1)` (`none` = `queue.Empty` timeout,
`some none` = the `None` sentinel enqueued by `close()`,
`some (some d)` = a byte buffer), and whether `channel.send` succeeds if
attempted. -/
structure SendStep where
  running : Bool
  chan : Bool
  fromQueue : Option (Option (List Nat))
  sendOk : Bool
deriving DecidableEq, Repr

/-- `SSHSession._send_loop` (session.py lines 119-135).  Per iteration:
`queue.Empty` means `continue`; a dequeued item is sent only when
`data and self.channel` is truthy (non-`None`, non-empty, channel set); an
exception from `channel.send` is caught at lines 130-132 (warning log,
`break` — no event).  Returns the buffers passed to `channel.send` and the
events emitted. -/
def sendLoop : List SendStep → List (List Nat) × List SEvent
  | [] => ([], [])
  | s :: rest =>
    if s.running && s.chan then
      match s.fromQueue with
      | none => sendLoop rest
      | some none => sendLoop rest
      | some (some data) =>
        if data.length ≠ 0 && s.chan then
          if s.sendOk then
            let r := sendLoop rest
            (data :: r.1, r.2)
          else ([data], [])
        else sendLoop rest
    else ([], [])

/-- Is an event a `session_closed` emission? -/
def isClosedEv : SEvent → Bool
  | SEvent.sessionClosed _ => true
  | _ => false

theorem recvPhase_no_closed (s : RecvStep) (evs : List SEvent) (calls : List CCall)
    (h : recvPhase s = Except.ok (some (evs, calls))) :
    evs.countP isClosedEv = 0 ∧ ∀ c, SEvent.sessionClosed c ∉ evs := by
  unfold recvPhase at h
  rcases hrr : s.recvReady with e | rr <;> rw [hrr] at h
  · simp at h
  · cases rr
    · simp only [Bool.false_eq_true, if_false, Except.ok.injEq, Option.some.injEq,
        Prod.mk.injEq] at h
      obtain ⟨h1, -⟩ := h
      subst h1
      simp
    · simp only [if_true] at h
      rcases hrd : s.recvData with e | data <;> rw [hrd] at h
      · simp at h
      · simp only [Except.ok.injEq, Option.some.injEq, Prod.mk.injEq] at h
        obtain ⟨h1, -⟩ := h
        subst h1
        by_cases hl : data.length ≠ 0 <;> simp [hl, isClosedEv]

theorem exitPhase_stop_facts (s : RecvStep) (evs2 : List SEvent) (calls2 : List CCall)
    (h : exitPhase s = ExitPhaseOut.stop evs2 calls2) :
    evs2.countP isClosedEv ≤ 1 ∧
    ∀ c, SEvent.sessionClosed c ∈ evs2 →
      evs2 = [SEvent.sessionClosed c] ∧ calls2.getLast? = some CCall.exitStatusCall := by
  unfold exitPhase at h
  rcases hex : s.exitReady with e | er <;> rw [hex] at h
  · injection h with h1 h2
    subst h1
    simp [isClosedEv]
  · cases er
    · simp at h
    · simp only [if_true] at h
      rcases hec : s.exitCode with e | code <;> rw [hec] at h
      · injection h with h1 h2
        subst h1 h2
        simp [isClosedEv]
      · injection h with h1 h2
        subst h1 h2
        constructor
        · simp [isClosedEv]
        · intro c hc
          simp only [List.mem_singleton, SEvent.sessionClosed.injEq] at hc
          subst hc
          simp

theorem receive_aux : ∀ script : List RecvStep,
    ((receiveLoop script).1.countP isClosedEv ≤ 1) ∧
    (∀ c, SEvent.sessionClosed c ∈ (receiveLoop script).1 →
      (receiveLoop script).1.getLast? = some (SEvent.sessionClosed c) ∧
      (receiveLoop script).2.getLast? = some CCall.exitStatusCall)
  | [] => by constructor <;> simp [receiveLoop]
  | s :: rest => by
    obtain ⟨ih1, ih2⟩ := receive_aux rest
    unfold receiveLoop
    rcases hrp : recvPhase s with e | o
    · constructor <;> simp [isClosedEv]
    · rcases o with - | ⟨evs, calls⟩
      · constructor <;> simp [isClosedEv]
      · obtain ⟨hc0, hnc⟩ := recvPhase_no_closed s evs calls hrp
        rcases hep : exitPhase s with ⟨evs2, calls2⟩ | calls2
        · obtain ⟨he1, he2⟩ := exitPhase_stop_facts s evs2 calls2 hep
          constructor
          · rw [List.countP_append, hc0]
            simpa using he1
          · intro c hc
            rcases List.mem_append.mp hc with hc | hc
            · exact absurd hc (hnc c)
            · obtain ⟨hev, hcall⟩ := he2 c hc
              subst hev
              constructor
              · simp
              · rw [List.getLast?_append, hcall]
                rfl
        · constructor
          · rw [List.countP_append, hc0]
            simpa using ih1
          · intro c hc
            rcases List.mem_append.mp hc with hc | hc
            · exact absurd hc (hnc c)
            · obtain ⟨hev, hcall⟩ := ih2 c hc
              constructor
              · rw [List.getLast?_append, hev]
                rfl
              · rw [List.getLast?_append, hcall]
                rfl

theorem sendLoop_no_events : ∀ script : List SendStep, (sendLoop script).2 = []
  | [] => rfl
  | s :: rest => by
    have ih := sendLoop_no_events rest
    unfold sendLoop
    by_cases h1 : (s.running && s.chan) = true
    · rw [if_pos h1]
      rcases s.fromQueue with - | d
      · exact ih
      · rcases d with - | data
        · exact ih
        · by_cases h2 : ¬data = [] ∧ s.chan = true
          · by_cases h3 : s.sendOk = true <;> simp [h2, h3, ih]
          · simp [h2, ih]
    · rw [if_neg h1]

/-- A buffer in the write trace of `_send_loop` either was dequeued, sent
and non-empty in the first iteration, or belongs to the write trace of the
remaining iterations. -/
theorem sendLoop_fst_cases (s : SendStep) (rest : List SendStep) (w : List Nat)
    (hw : w ∈ (sendLoop (s :: rest)).1) :
    (s.fromQueue = some (some w) ∧ w ≠ []) ∨ w ∈ (sendLoop rest).1 := by
  unfold sendLoop at hw
  by_cases h1 : (s.running && s.chan) = true
  · rw [if_pos h1] at hw
    rcases hq : s.fromQueue with - | d <;> rw [hq] at hw
    · right; exact hw
    · rcases d with - | data
      · right; exact hw
      · have hw2 : w ∈ (if (decide (data.length ≠ 0) && s.chan) = true then
            (if s.sendOk = true then (data :: (sendLoop rest).1, (sendLoop rest).2)
             else ([data], []))
          else sendLoop rest).1 := hw
        by_cases h2 : (decide (data.length ≠ 0) && s.chan) = true
        · rw [if_pos h2] at hw2
          have hne : data ≠ [] := by
            intro hnil
            subst hnil
            simp at h2
          by_cases h3 : s.sendOk = true
          · rw [if_pos h3] at hw2
            rcases List.mem_cons.mp hw2 with h4 | h4
            · subst h4
              exact Or.inl ⟨rfl, hne⟩
            · right; exact h4
          · rw [if_neg h3] at hw2
            simp only [List.mem_singleton] at hw2
            subst hw2
            exact Or.inl ⟨rfl, hne⟩
        · rw [if_neg h2] at hw2
          right; exact hw2
  · rw [if_neg h1] at hw
    simp at hw

/-!
## Claims
-/

/-- C1, counterexample: chunk-boundary transparency fails.  Feeding the
chunks `\x1b[` and `31mRED` separately and concatenating the results gives
plain text with no color directive, while the single call on the
concatenation gives a foreground-red directive followed by the run `RED`;
the rendered character/attribute sequences differ. -/
theorem c1_transparency_counterexample :
    styledChars defaultAttr
        (parseAnsi "\x1b[".toList ++ parseAnsi "31mRED".toList)
      ≠ styledChars defaultAttr
        (parseAnsi ("\x1b[".toList ++ "31mRED".toList)) ∧
    parseAnsi "\x1b[".toList ++ parseAnsi "31mRED".toList
      = [Item.text ['['], Item.text "31mRED".toList] ∧
    parseAnsi ("\x1b[".toList ++ "31mRED".toList)
      = [Item.dir (Dir.fg ⟨205, 0, 0⟩), Item.text "RED".toList] := by
  have hcat : "\x1b[".toList ++ "31mRED".toList = "\x1b[31mRED".toList := rfl
  refine ⟨?_, ?_, ?_⟩
  · rw [parse_chunk_escBracket, parse_chunk_31mRED, hcat, parse_esc31mRED]
    decide
  · rw [parse_chunk_escBracket, parse_chunk_31mRED]
    rfl
  · rw [hcat, parse_esc31mRED]

/-- C1, amended: `_parse_ansi` keeps no parser state across calls, so
transparency only holds for streams in which no escape sequence or stripped
control byte can interact with a chunk boundary: if every chunk consists
only of non-stripped characters (no ESC, no stripped control bytes), the
concatenated per-chunk outputs render the same styled character sequence as
the single call on the concatenation. -/
theorem c1_transparency_amended (chunks : List (List Char)) (a : Attr)
    (h : ∀ l ∈ chunks, ∀ ch ∈ l, strippedChar ch = false) :
    styledChars a ((chunks.map parseAnsi).flatten)
      = styledChars a (parseAnsi chunks.flatten) := by
  rw [chunks_styled chunks a h]
  have hflat : ∀ ch ∈ chunks.flatten, strippedChar ch = false := by
    intro ch hch
    rcases List.mem_flatten.mp hch with ⟨l, hl, hchl⟩
    exact h l hl ch hchl
  rw [parse_nostrip _ hflat]
  by_cases hemp : chunks.flatten.isEmpty
  · have hnil : chunks.flatten = [] := by simpa [List.isEmpty_iff] using hemp
    rw [if_pos hemp, hnil]
    rfl
  · rw [if_neg hemp]
    simp [styledChars]

/-- Witness for C1 amended, at the chunks `ab` and `cd`. -/
theorem c1_transparency_amended_witness :
    styledChars defaultAttr
        (([ "ab".toList, "cd".toList ].map parseAnsi).flatten)
      = styledChars defaultAttr
        (parseAnsi ["ab".toList, "cd".toList].flatten) :=
  c1_transparency_amended ["ab".toList, "cd".toList] defaultAttr (by decide)

/-- C2, counterexample: a chunk ending in an unterminated escape sequence
is not buffered in any parser state; `_parse_ansi` emits the fragment
(minus the ESC byte) as visible text: parsing `\x1b[3` yields the text
part `[3`, not an empty output with a pending sequence. -/
theorem c2_buffering_counterexample :
    parseAnsi "\x1b[3".toList = [Item.text "[3".toList] ∧
    parseAnsi "\x1b[3".toList ≠ [] := by
  refine ⟨parse_esc3, ?_⟩
  rw [parse_esc3]
  simp

/-- C2, amended: when ESC and an opening bracket are followed only by
non-terminator characters to the end of the chunk, the scan finds no
terminator and line 151 merely skips the ESC byte: the parse equals the
parse of the same chunk without the ESC, so the fragment is re-scanned as
ordinary input (and, being printable, emitted as visible text), not
deferred into state. -/
theorem c2_buffering_amended (s : List Char)
    (h : ∀ ch ∈ s, isTerminator ch = false) :
    parseAnsi (escChar :: '[' :: s) = parseAnsi ('[' :: s) := by
  have hdrop : s.dropWhile (fun ch => !(isTerminator ch)) = [] :=
    List.dropWhile_eq_nil_iff.mpr (fun x hx => by simp [h x hx])
  have hesc : isEscStart escChar ('[' :: s) := ⟨rfl, rfl⟩
  conv_lhs => unfold parseAnsi
  rw [dif_pos hesc]
  simp only [List.tail_cons, hdrop, List.head?_nil]

/-- Witness for C2 amended, at the fragment digit 3. -/
theorem c2_buffering_amended_witness :
    parseAnsi (escChar :: '[' :: ['3']) = parseAnsi ('[' :: ['3']) :=
  c2_buffering_amended ['3'] (by decide)

/-- C3, code bug: the background branch of `_parse_ansi` (lines 140-144)
looks the single character `code[1]` up in `ANSI_COLORS`, whose keys are
all two characters, so it can never emit a background directive: every
complete sequence with a parameter 40-47 and terminator `m` produces no
output at all, and following text is parsed as plain text with unchanged
attributes. -/
theorem c3_background_codes_dead :
    parseAnsi "\x1b[40m".toList = [] ∧
    parseAnsi "\x1b[41m".toList = [] ∧
    parseAnsi "\x1b[42m".toList = [] ∧
    parseAnsi "\x1b[43m".toList = [] ∧
    parseAnsi "\x1b[44m".toList = [] ∧
    parseAnsi "\x1b[45m".toList = [] ∧
    parseAnsi "\x1b[46m".toList = [] ∧
    parseAnsi "\x1b[47m".toList = [] ∧
    parseAnsi "\x1b[41mX".toList = [Item.text ['X']] := by
  refine ⟨?_, ?_, ?_, ?_, ?_, ?_, ?_, ?_, ?_⟩ <;>
    simp +decide [parseAnsi, mItems, splitSemis, codeItems, lookupColor, ANSI_COLORS,
      isEscStart, escChar, strippedChar, isTerminator, terminators, takeRun,
      List.dropWhile, List.takeWhile, List.contains, List.elem]

/-- C4, counterexample: an exception from `recv` is caught by the inner
handler of `_receive_loop` (lines 102-104), which logs a warning and
breaks: no `error_occurred` (and no `session_closed`) event is emitted.
Likewise an exception from `channel.send` in `_send_loop` (lines 130-132)
stops the pump with no event.  The session goes silent after either
failure. -/
theorem c4_io_error_counterexample :
    receiveLoop [⟨Except.ok true, Except.error "io", Except.ok true, Except.ok 0⟩]
      = ([], [CCall.recvReadyCall, CCall.recvCall]) ∧
    sendLoop [⟨true, true, some (some [65]), false⟩] = ([[65]], []) :=
  ⟨rfl, rfl⟩

/-- C4, amended: only exceptions reaching the outer handler of
`_receive_loop` — from `recv_ready()`, `exit_status_ready()` or
`recv_exit_status()` — emit `error_occurred` and stop; an exception from
`recv` itself stops the receive pump silently, and `_send_loop` never
emits any event at all (its outer handler is unreachable), so a send
failure is also silent. -/
theorem c4_io_error_amended :
    (∀ (e : String) (s : RecvStep) (rest : List RecvStep),
      s.recvReady = Except.error e →
      receiveLoop (s :: rest) = ([SEvent.errorOccurred e], [CCall.recvReadyCall])) ∧
    (∀ (e : String) (s : RecvStep) (rest : List RecvStep),
      s.recvReady = Except.ok false → s.exitReady = Except.error e →
      receiveLoop (s :: rest)
        = ([SEvent.errorOccurred e], [CCall.recvReadyCall, CCall.exitReadyCall])) ∧
    (∀ (e : String) (s : RecvStep) (rest : List RecvStep),
      s.recvReady = Except.ok true → s.recvData = Except.error e →
      receiveLoop (s :: rest) = ([], [CCall.recvReadyCall, CCall.recvCall])) ∧
    (∀ script : List SendStep, (sendLoop script).2 = []) := by
  refine ⟨?_, ?_, ?_, sendLoop_no_events⟩
  · intro e s rest h1
    unfold receiveLoop recvPhase
    rw [h1]
  · intro e s rest h1 h2
    unfold receiveLoop recvPhase exitPhase
    rw [h1, h2]
    rfl
  · intro e s rest h1 h2
    unfold receiveLoop recvPhase
    rw [h1, h2]
    rfl

/-- Witness for C4 amended: a failing `recv_ready()` emits exactly one
error event. -/
theorem c4_io_error_amended_witness :
    receiveLoop [⟨Except.error "down", Except.ok [], Except.ok false, Except.ok 0⟩]
      = ([SEvent.errorOccurred "down"], [CCall.recvReadyCall]) :=
  c4_io_error_amended.1 "down"
    ⟨Except.error "down", Except.ok [], Except.ok false, Except.ok 0⟩ [] rfl

/-- C5, counterexample: the bell byte in `A\x07B` is dropped, but the
surrounding printable segments are appended as two separate text parts,
not coalesced into the single run `AB`. -/
theorem c5_coalescing_counterexample :
    parseAnsi "A\x07B".toList = [Item.text ['A'], Item.text ['B']] ∧
    parseAnsi "A\x07B".toList ≠ [Item.text "AB".toList] := by
  refine ⟨parse_bell, ?_⟩
  rw [parse_bell]
  simp

/-- C5, amended: every byte below 0x20 other than newline, carriage return
and tab is dropped without error — no text part ever contains one — but
the printable segments around a dropped byte form separate runs: `A\x07B`
yields the two runs `A` and `B` (whose concatenated text is `AB`), not one
run. -/
theorem c5_coalescing_amended :
    (∀ (l t : List Char), Item.text t ∈ parseAnsi l →
      ∀ ch ∈ t, strippedChar ch = false) ∧
    parseAnsi "A\x07B".toList = [Item.text ['A'], Item.text ['B']] :=
  ⟨fun l t h => (parse_text_parts l t h).2, parse_bell⟩

/-- Witness for C5 amended: the first run of `A\x07B` contains no stripped
byte. -/
theorem c5_coalescing_amended_witness : strippedChar 'A' = false :=
  c5_coalescing_amended.1 "A\x07B".toList ['A']
    (by rw [parse_bell]; simp) 'A' (by simp)

/-- C6, confirmed: the receive loop emits at most one `session_closed`
event; when one is emitted it is the final event and the final channel
call is the `recv_exit_status()` retrieval, so no read follows it.  When
an iteration finds no data and `exit_status_ready()` is true with code
`N`, the loop emits exactly `session_closed N` and stops.  The send pump
performs no write once it observes the cleared running flag. -/
theorem c6_exit_code_propagation (script : List RecvStep) :
    ((receiveLoop script).1.countP isClosedEv ≤ 1) ∧
    (∀ c, SEvent.sessionClosed c ∈ (receiveLoop script).1 →
      (receiveLoop script).1.getLast? = some (SEvent.sessionClosed c) ∧
      (receiveLoop script).2.getLast? = some CCall.exitStatusCall) ∧
    (∀ (s : RecvStep) (rest : List RecvStep) (code : Int),
      s.recvReady = Except.ok false → s.exitReady = Except.ok true →
      s.exitCode = Except.ok code →
      receiveLoop (s :: rest)
        = ([SEvent.sessionClosed code],
           [CCall.recvReadyCall, CCall.exitReadyCall, CCall.exitStatusCall])) ∧
    (∀ (s : SendStep) (rest : List SendStep),
      s.running = false → sendLoop (s :: rest) = ([], [])) := by
  refine ⟨(receive_aux script).1, (receive_aux script).2, ?_, ?_⟩
  · intro s rest code h1 h2 h3
    unfold receiveLoop recvPhase exitPhase
    rw [h1, h2, h3]
    rfl
  · intro s rest h
    unfold sendLoop
    rw [h]
    rfl

/-- Witness for C6, at a script whose first iteration reports exit code 7. -/
theorem c6_exit_code_propagation_witness :
    receiveLoop [⟨Except.ok false, Except.ok [], Except.ok true, Except.ok 7⟩]
      = ([SEvent.sessionClosed 7],
         [CCall.recvReadyCall, CCall.exitReadyCall, CCall.exitStatusCall]) :=
  (c6_exit_code_propagation []).2.2.1
    ⟨Except.ok false, Except.ok [], Except.ok true, Except.ok 7⟩ [] 7 rfl rfl rfl

/-- C7, confirmed: a sequence with parameter 0 (or an empty parameter) and
terminator `m` parses to a reset directive, and applying it restores the
default attributes of session start — white `QColor(229, 229, 229)` text
on black `QColor(0, 0, 0)` — whatever the prior state. -/
theorem c7_reset_idempotence (a : Attr) :
    runAttrs a (parseAnsi "\x1b[0m".toList) = defaultAttr ∧
    runAttrs a (parseAnsi "\x1b[m".toList) = defaultAttr := by
  rw [parse_esc0m, parse_escm]
  exact ⟨rfl, rfl⟩

/-- C8, confirmed: the unrecognized parameter 999 in a complete
`m`-terminated sequence is ignored silently — the parse yields only the
following text `hi`, the attribute state is unchanged by the result, and
the text renders as a normal run under the prior attributes. -/
theorem c8_unknown_code_ignored :
    parseAnsi "\x1b[999mhi".toList = [Item.text "hi".toList] ∧
    (∀ a : Attr, runAttrs a (parseAnsi "\x1b[999mhi".toList) = a) ∧
    (∀ a : Attr, styledChars a (parseAnsi "\x1b[999mhi".toList)
      = "hi".toList.map (fun ch => (ch, a))) := by
  refine ⟨parse_esc999hi, fun a => ?_, fun a => ?_⟩ <;> rw [parse_esc999hi] <;> rfl

/-- C9, confirmed: `_send_loop` calls `channel.send` only for a dequeued
item that is a non-empty buffer (the guard `data and self.channel`), so
neither the `None` sentinel enqueued by `close()` nor an empty buffer is
ever written to the channel. -/
theorem c9_no_sentinel_write :
    ∀ script : List SendStep, ∀ w ∈ (sendLoop script).1,
      w ≠ [] ∧ ∃ s ∈ script, s.fromQueue = some (some w)
  | [] => by simp [sendLoop]
  | s :: rest => by
    intro w hw
    rcases sendLoop_fst_cases s rest w hw with ⟨hq, hne⟩ | hmem
    · exact ⟨hne, s, by simp, hq⟩
    · obtain ⟨hne, s2, hs2, hfq⟩ := c9_no_sentinel_write rest w hmem
      exact ⟨hne, s2, by simp [hs2], hfq⟩

/-- Witness for C9, at a script that dequeues the non-empty buffer 104. -/
theorem c9_no_sentinel_write_witness :
    ([104] : List Nat) ≠ [] ∧
    ∃ s ∈ [(⟨true, true, some (some [104]), true⟩ : SendStep)],
      s.fromQueue = some (some [104]) :=
  c9_no_sentinel_write [⟨true, true, some (some [104]), true⟩] [104] (by decide)

/-- C10, confirmed: `_parse_ansi` appends a text part only under the guard
`start < i` (line 167), so every text part of every parse result is
non-empty. -/
theorem c10_no_empty_run (l t : List Char) (h : Item.text t ∈ parseAnsi l) :
    t ≠ [] :=
  (parse_text_parts l t h).1

/-- Witness for C10, at the text part produced for `hi`. -/
theorem c10_no_empty_run_witness : ("hi".toList : List Char) ≠ [] :=
  c10_no_empty_run "\x1b[999mhi".toList "hi".toList (by rw [parse_esc999hi]; simp)

end Pywinssh
